import Mathlib

/-!
Verification of the Portfolio repository's algorithmic core.

Two groups of definitions are embedded here:

* The chunking subsystem (sliding-window chunker, structured chunker,
  `ChunkingConfig`).  The Python sources (`Scripts/chunking/text_chunker.py`,
  `Scripts/chunking/chunking_config.py`) are not part of the source tree we
  were given, only their documentation; these definitions are therefore
  modelled from the specification (each doc comment says so explicitly).
  Text is represented as its token sequence (`List α`), matching the spec's
  "token metric" abstraction.

* The front-end helpers present in the source tree: the Chatbot component's
  `handleSendMessage` (src/unnamed/part_000) and the Experience component's
  `getDateSortKey` plus its newest-first timeline sort (src/unnamed/part_001).
  JavaScript strings are embedded as `List Char`, and the JS string
  primitives used by that code (`trim`, `split(" ")`, `parseInt`) are given
  explicit executable models below.
-/

universe u

/-! ### JavaScript string primitives (model) -/

/-- Whitespace test used by the model of JS `String.prototype.trim`
(the source strings are ASCII, so the ASCII whitespace set suffices). -/
def jsIsWhitespace (c : Char) : Bool :=
  c == ' ' || c == '\t' || c == '\n' || c == '\r'

/-- Decimal digit test used by the model of JS `parseInt`. -/
def jsIsDigit (c : Char) : Bool :=
  c == '0' || c == '1' || c == '2' || c == '3' || c == '4' ||
  c == '5' || c == '6' || c == '7' || c == '8' || c == '9'

/-- Model of JS `String.prototype.trim`: drop whitespace from both ends. -/
def jsTrim (s : List Char) : List Char :=
  ((s.dropWhile jsIsWhitespace).reverse.dropWhile jsIsWhitespace).reverse

/-- Model of JS `String.prototype.split(" ")`: split on every single space
character; consecutive separators yield empty fields, and the result is
never the empty list. -/
def splitOnSpace : List Char → List (List Char)
  | [] => [[]]
  | c :: cs =>
      if c = ' ' then [] :: splitOnSpace cs
      else
        match splitOnSpace cs with
        | [] => [[c]]
        | r :: rs => (c :: r) :: rs

/-- Value of a digit string, most significant digit first. -/
def digitsToNat (ds : List Char) : Nat :=
  ds.foldl (fun acc c => acc * 10 + (c.toNat - 48)) 0

/-- Model of JS `parseInt` on the strings this code feeds it: read the
longest leading run of decimal digits; `none` models `NaN`. -/
def jsParseInt (s : List Char) : Option Nat :=
  let ds := s.takeWhile jsIsDigit
  if ds = [] then none else some (digitsToNat ds)

/-! ### Experience component: `getDateSortKey` and the timeline sort
(src/unnamed/part_001, lines 72-88) -/

/-- The `months` lookup table of `getDateSortKey`:
`{"Jan": 1, ..., "Dec": 12}`. -/
def monthIndex (s : List Char) : Option Nat :=
  if s = ['J', 'a', 'n'] then some 1
  else if s = ['F', 'e', 'b'] then some 2
  else if s = ['M', 'a', 'r'] then some 3
  else if s = ['A', 'p', 'r'] then some 4
  else if s = ['M', 'a', 'y'] then some 5
  else if s = ['J', 'u', 'n'] then some 6
  else if s = ['J', 'u', 'l'] then some 7
  else if s = ['A', 'u', 'g'] then some 8
  else if s = ['S', 'e', 'p'] then some 9
  else if s = ['O', 'c', 't'] then some 10
  else if s = ['N', 'o', 'v'] then some 11
  else if s = ['D', 'e', 'c'] then some 12
  else none

/-- Embedding of `getDateSortKey` (src/unnamed/part_001):
`if (!dateString) return 0;` then split the trimmed string on spaces; with
at least two parts return `(parseInt(parts[1]) || 2000) * 100 +
(months[parts[0]] || 1)`, otherwise `0`.  Note that JS `||` makes the
year fall back to 2000 also when `parseInt` returns `0`. -/
def getDateSortKey (dateString : List Char) : Nat :=
  if dateString = [] then 0
  else
    match splitOnSpace (jsTrim dateString) with
    | p0 :: p1 :: _ =>
        let month := (monthIndex p0).getD 1
        let year :=
          match jsParseInt p1 with
          | some y => if y = 0 then 2000 else y
          | none => 2000
        year * 100 + month
    | _ => 0

/-- A timeline entry as built in `Experience`: only the `date` string and
the derived sort key matter for the ordering claims. -/
structure TimelineItem where
  date : List Char
deriving DecidableEq

/-- Sort key stored with each timeline item
(`sortKey: getDateSortKey(startDate)`). -/
def TimelineItem.sortKey (it : TimelineItem) : Nat :=
  getDateSortKey it.date

/-- Newest-first timeline ordering: `items.sort((a, b) => b.sortKey -
a.sortKey)`, modelled as a sort by descending `sortKey`. -/
def sortTimeline (items : List TimelineItem) : List TimelineItem :=
  items.insertionSort (fun a b => b.sortKey ≤ a.sortKey)

/-! ### Chatbot component: `handleSendMessage`
(src/unnamed/part_000, lines 50-98) -/

/-- One entry of the `messages` state: `{ text, isBot }`. -/
structure ChatMessage where
  text : List Char
  isBot : Bool
deriving DecidableEq

/-- The Chatbot component state touched by `handleSendMessage`:
`messages`, `input`, and the `loading` flag. -/
structure ChatState where
  messages : List ChatMessage
  input : List Char
  loading : Bool
deriving DecidableEq

/-- Outcome of the `fetch` call: a successful response carrying
`data.response`, a non-OK HTTP status (`!response.ok`, thrown and caught),
or a network error (the `fetch` promise rejecting, caught). -/
inductive FetchOutcome where
  | success (response : List Char)
  | httpError
  | networkFailure
deriving DecidableEq

/-- The fixed failure notice appended in the `catch` block. -/
def failureNotice : List Char :=
  "Failed to send the message. Please try again.".toList

/-- Embedding of `handleSendMessage`: guard on `input.trim() === ""`,
append the user message, clear the input, set `loading`, fetch, append the
bot message (response text or `failureNotice`), and finally clear
`loading`.  The returned `Bool` records whether a network request was
issued. -/
def handleSendMessage (st : ChatState) (outcome : FetchOutcome) :
    ChatState × Bool :=
  if jsTrim st.input = [] then (st, false)
  else
    let afterUser : ChatState :=
      { messages := st.messages ++ [⟨st.input, false⟩]
        input := []
        loading := true }
    let reply : List Char :=
      match outcome with
      | .success r => r
      | .httpError => failureNotice
      | .networkFailure => failureNotice
    ({ afterUser with
        messages := afterUser.messages ++ [⟨reply, true⟩]
        loading := false },
      true)

/-! ### Chunking configuration -/

/-- Modelled from the spec: the error taxonomy entry **ConfigurationError**
(spec section 7) raised for an invalid `ChunkingConfig` — `overlap_size ≥
chunk_size` or negative sizes. -/
inductive ConfigurationError where
  | nonPositiveChunkSize
  | negativeOverlapSize
  | overlapNotSmallerThanChunkSize
deriving DecidableEq

/-- Modelled from the spec: `ChunkingConfig` (spec section 3) — the
process-wide chunking configuration, with the invariant
`0 ≤ overlap_size < chunk_size` carried as a proof so that every
constructed configuration is valid. -/
structure ChunkingConfig where
  chunk_size : Nat
  overlap_size : Nat
  max_chunks_per_query : Nat
  embedding_delay : Nat
  valid : overlap_size < chunk_size

/-- Modelled from the spec: construction and validation of a
`ChunkingConfig` at config-load time.  Invalid combinations
(`chunk_size ≤ 0`, `overlap_size < 0`, `overlap_size ≥ chunk_size`) fail
fast with a `ConfigurationError` before any chunking can begin; chunking
functions only accept an already validated `ChunkingConfig`. -/
def mkChunkingConfig (chunk_size overlap_size max_chunks_per_query
    embedding_delay : Int) : Except ConfigurationError ChunkingConfig :=
  if h1 : chunk_size ≤ 0 then .error .nonPositiveChunkSize
  else if h2 : overlap_size < 0 then .error .negativeOverlapSize
  else if h3 : chunk_size ≤ overlap_size then
    .error .overlapNotSmallerThanChunkSize
  else
    .ok ⟨chunk_size.toNat, overlap_size.toNat, max_chunks_per_query.toNat,
      embedding_delay.toNat, by omega⟩

/-- The default configuration from `chunking/chunking_config.py`
(`CHUNKING_CONFIG`): `chunk_size = 512`, `overlap_size = 50`,
`max_chunks_per_query = 5`, `embedding_delay = 1`. -/
def cfg512 : ChunkingConfig := ⟨512, 50, 5, 1, by omega⟩

/-- A small configuration used to exercise the chunkers on short inputs. -/
def cfgSmall : ChunkingConfig := ⟨3, 1, 5, 1, by omega⟩

/-! ### Sliding-window chunker -/

/-- Modelled from the spec: the sliding-window loop of
`SlidingWindowChunker` (spec section 4.1) — starting at offset 0, emit a
window of up to `chunk_size` tokens, advance the start by `chunk_size −
overlap_size`, and repeat until the remaining text is exhausted, emitting
no trailing empty or duplicate window.  The recursion is bounded by an
explicit fuel counter; each step consumes at least one token, so fuel
initialized to the token count (as in `slidingWindows`) is never
exhausted. -/
def slidingWindowsAux {α : Type u} (cfg : ChunkingConfig) :
    Nat → List α → List (List α)
  | _, [] => []
  | 0, _ :: _ => []
  | fuel + 1, t :: rest =>
      if (t :: rest).length ≤ cfg.chunk_size then [t :: rest]
      else
        (t :: rest).take cfg.chunk_size ::
          slidingWindowsAux cfg fuel
            ((t :: rest).drop (cfg.chunk_size - cfg.overlap_size))

/-- Modelled from the spec: the ordered token windows produced by the
sliding-window chunker for one input text. -/
def slidingWindows {α : Type u} (cfg : ChunkingConfig) (tokens : List α) :
    List (List α) :=
  slidingWindowsAux cfg tokens.length tokens

/-- The non-overlapping portions of a window sequence, concatenated: the
first window whole, then each later window with its `overlap`-token
shared prefix removed. -/
def nonOverlapConcat {α : Type u} (overlap : Nat) :
    List (List α) → List α
  | [] => []
  | w :: rest => w ++ (rest.map (List.drop overlap)).flatten

/-- Modelled from the spec: a `Chunk` (spec section 3) — the text span (as
its token sequence) plus the recognized metadata keys.  The `section`
metadata key is called `sectionLabel` here because `section` is reserved
in Lean; it is `none` for sliding-window chunks, which carry no section
label of their own. -/
structure Chunk (α : Type u) where
  text : List α
  source_type : String
  sectionLabel : Option String
  chunk_index : Nat
  total_chunks : Nat
deriving DecidableEq

/-- Modelled from the spec: the full sliding-window chunker — windows plus
metadata, `chunk_index` being the 0-based position and `total_chunks` the
length of the whole sequence (spec section 4.1). -/
def slidingChunkText {α : Type u} (cfg : ChunkingConfig)
    (source_type : String) (tokens : List α) : List (Chunk α) :=
  let ws := slidingWindows cfg tokens
  ws.enum.map fun p => ⟨p.2, source_type, none, p.1, ws.length⟩

/-! ### Structured (semantic-unit) chunker -/

/-- Modelled from the spec: the fixed set of semantic-unit types of the
structured chunker (spec section 4.2). -/
inductive SectionName where
  | basicInfo
  | workExperience
  | project
  | education
  | certification
  | award
  | skills
  | repository
deriving DecidableEq

/-- The `section` metadata label written for each unit type. -/
def SectionName.label : SectionName → String
  | .basicInfo => "basic_info"
  | .workExperience => "work_experience"
  | .project => "project"
  | .education => "education"
  | .certification => "certification"
  | .award => "award"
  | .skills => "skills"
  | .repository => "repository"

/-- The order in which the structured chunker visits the sections. -/
def sectionOrder : List SectionName :=
  [.basicInfo, .workExperience, .project, .education, .certification,
   .award, .skills, .repository]

/-- Modelled from the spec: a structured `SourceRecord` (spec section 3) —
a mapping from section to its parsed list of units (each unit already
serialized to its token sequence), or `none` when that section is missing
or fails to parse into its expected shape (**MalformedSectionError**). -/
structure StructuredRecord (α : Type u) where
  sections : SectionName → Option (List (List α))

/-- Chunks of one parsed section: one chunk per unit, `chunk_index` and
`total_chunks` scoped to this unit type. -/
def sectionChunksAux {α : Type u} (source_type label : String)
    (total : Nat) : Nat → List (List α) → List (Chunk α)
  | _, [] => []
  | i, u :: us =>
      ⟨u, source_type, some label, i, total⟩ ::
        sectionChunksAux source_type label total (i + 1) us

/-- Chunks of one parsed section, indices starting at 0. -/
def sectionChunks {α : Type u} (source_type label : String)
    (units : List (List α)) : List (Chunk α) :=
  sectionChunksAux source_type label units.length 0 units

/-- Chunks contributed by one section of a record: a malformed or missing
section contributes nothing. -/
def secBlock {α : Type u} (source_type : String) (sn : SectionName)
    (o : Option (List (List α))) : List (Chunk α) :=
  match o with
  | some us => sectionChunks source_type sn.label us
  | none => []

/-- Modelled from the spec: the structured chunker (spec section 4.2) —
one chunk per semantic unit, visiting the sections in order; a malformed
or missing section is skipped and reported in the returned warning list
(its name logged), and processing always continues with the remaining
sections. -/
def structuredChunks {α : Type u} (source_type : String)
    (r : StructuredRecord α) : List (Chunk α) × List String :=
  ((sectionOrder.map fun sn => secBlock source_type sn (r.sections sn)).flatten,
   (sectionOrder.filter fun sn => (r.sections sn).isNone).map
     SectionName.label)

/-- The work-experience chunks of a record's structured output. -/
def workChunksOf {α : Type u} (source_type : String)
    (r : StructuredRecord α) : List (Chunk α) :=
  (structuredChunks source_type r).1.filter
    fun c => c.sectionLabel == some "work_experience"

/-! ### Concrete inputs used to exercise the model -/

/-- The 1500-token input of the spec's worked example, with each token
standing for its own offset. -/
def tokens1500 : List Nat := List.range 1500

/-- A structured record whose single work-experience unit serializes to
513 tokens, one more than the default `chunk_size`. -/
def oversizeRecord : StructuredRecord Nat :=
  ⟨fun sn =>
    match sn with
    | .workExperience => some [List.replicate 513 0]
    | _ => none⟩

/-- A structured record with three work-experience entries, one skills
unit, and a missing (or malformed) projects section. -/
def sampleRecord : StructuredRecord Nat :=
  ⟨fun sn =>
    match sn with
    | .workExperience => some [[1], [2], [3]]
    | .skills => some [[9]]
    | _ => none⟩

/-! ## Lemmas about the JS string primitives -/

set_option maxRecDepth 1000000

theorem jsIsDigit_not_whitespace {c : Char} (h : jsIsDigit c = true) :
    jsIsWhitespace c = false := by
  simp [jsIsDigit] at h
  rcases h with ((((((((h | h) | h) | h) | h) | h) | h) | h) | h) | h <;>
    subst h <;> decide

theorem jsIsDigit_ne_space {c : Char} (h : jsIsDigit c = true) : c ≠ ' ' := by
  intro he
  subst he
  exact absurd h (by decide)

theorem dropWhile_append_of_head {p : Char → Bool} :
    ∀ l1 l2 : List Char, l1 ≠ [] → (∀ c ∈ l1, p c = false) →
      (l1 ++ l2).dropWhile p = l1 ++ l2
  | [], _, h, _ => absurd rfl h
  | c :: t, l2, _, hall => by
      simp [List.dropWhile_cons, hall c (List.mem_cons_self ..)]

theorem jsTrim_month_year (m ds : List Char) (hm : m ≠ [])
    (hmw : ∀ c ∈ m, jsIsWhitespace c = false)
    (hd : ds ≠ []) (hdd : ∀ c ∈ ds, jsIsDigit c = true) :
    jsTrim (m ++ ' ' :: ds) = m ++ ' ' :: ds := by
  have hstep1 : (m ++ ' ' :: ds).dropWhile jsIsWhitespace = m ++ ' ' :: ds :=
    dropWhile_append_of_head m (' ' :: ds) hm hmw
  have hrev : (m ++ ' ' :: ds).reverse = ds.reverse ++ (' ' :: m.reverse) := by
    simp
  have hdr : ∀ c ∈ ds.reverse, jsIsWhitespace c = false := fun c hc =>
    jsIsDigit_not_whitespace (hdd c (List.mem_reverse.mp hc))
  have hstep2 : (m ++ ' ' :: ds).reverse.dropWhile jsIsWhitespace
      = (m ++ ' ' :: ds).reverse := by
    rw [hrev]
    exact dropWhile_append_of_head ds.reverse (' ' :: m.reverse)
      (by simp [hd]) hdr
  unfold jsTrim
  rw [hstep1, hstep2, List.reverse_reverse]

theorem splitOnSpace_no_space : ∀ l : List Char, (∀ c ∈ l, c ≠ ' ') →
    splitOnSpace l = [l]
  | [], _ => rfl
  | c :: cs, h => by
      have ih := splitOnSpace_no_space cs
        (fun x hx => h x (List.mem_cons_of_mem _ hx))
      simp [splitOnSpace, h c (List.mem_cons_self ..), ih]

theorem splitOnSpace_append_space : ∀ m ds : List Char,
    (∀ c ∈ m, c ≠ ' ') →
    splitOnSpace (m ++ ' ' :: ds) = m :: splitOnSpace ds
  | [], ds, _ => by simp [splitOnSpace]
  | c :: m', ds, h => by
      have ih := splitOnSpace_append_space m' ds
        (fun x hx => h x (List.mem_cons_of_mem _ hx))
      simp [splitOnSpace, h c (List.mem_cons_self ..), ih]

theorem takeWhile_all {p : Char → Bool} : ∀ l : List Char,
    (∀ c ∈ l, p c = true) → l.takeWhile p = l
  | [], _ => rfl
  | c :: t, h => by
      have ih := takeWhile_all t (fun x hx => h x (List.mem_cons_of_mem _ hx))
      simp [List.takeWhile_cons, h c (List.mem_cons_self ..), ih]

/-! ## Lemmas about `getDateSortKey` -/

theorem monthIndex_chars (m : List Char) (idx : Nat)
    (h : monthIndex m = some idx) :
    m ≠ [] ∧ ∀ c ∈ m, jsIsWhitespace c = false := by
  by_cases h1 : m = ['J', 'a', 'n']
  · subst h1
    exact ⟨by decide, by decide⟩
  by_cases h2 : m = ['F', 'e', 'b']
  · subst h2
    exact ⟨by decide, by decide⟩
  by_cases h3 : m = ['M', 'a', 'r']
  · subst h3
    exact ⟨by decide, by decide⟩
  by_cases h4 : m = ['A', 'p', 'r']
  · subst h4
    exact ⟨by decide, by decide⟩
  by_cases h5 : m = ['M', 'a', 'y']
  · subst h5
    exact ⟨by decide, by decide⟩
  by_cases h6 : m = ['J', 'u', 'n']
  · subst h6
    exact ⟨by decide, by decide⟩
  by_cases h7 : m = ['J', 'u', 'l']
  · subst h7
    exact ⟨by decide, by decide⟩
  by_cases h8 : m = ['A', 'u', 'g']
  · subst h8
    exact ⟨by decide, by decide⟩
  by_cases h9 : m = ['S', 'e', 'p']
  · subst h9
    exact ⟨by decide, by decide⟩
  by_cases h10 : m = ['O', 'c', 't']
  · subst h10
    exact ⟨by decide, by decide⟩
  by_cases h11 : m = ['N', 'o', 'v']
  · subst h11
    exact ⟨by decide, by decide⟩
  by_cases h12 : m = ['D', 'e', 'c']
  · subst h12
    exact ⟨by decide, by decide⟩
  rw [monthIndex, if_neg h1, if_neg h2, if_neg h3, if_neg h4, if_neg h5, if_neg h6, if_neg h7, if_neg h8, if_neg h9, if_neg h10, if_neg h11, if_neg h12] at h
  exact Option.noConfusion h

theorem getDateSortKey_month_year (m ds : List Char) (idx : Nat)
    (h : monthIndex m = some idx)
    (hd : ds ≠ []) (hdd : ∀ c ∈ ds, jsIsDigit c = true)
    (hz : digitsToNat ds ≠ 0) :
    getDateSortKey (m ++ ' ' :: ds) = digitsToNat ds * 100 + idx := by
  obtain ⟨hm, hmw⟩ := monthIndex_chars m idx h
  have hne : m ++ ' ' :: ds ≠ [] := by
    cases m with
    | nil => exact absurd rfl hm
    | cons a t => simp
  have hms : ∀ c ∈ m, c ≠ ' ' := by
    intro c hc he
    subst he
    exact absurd (hmw ' ' hc) (by decide)
  have hds : ∀ c ∈ ds, c ≠ ' ' := fun c hc => jsIsDigit_ne_space (hdd c hc)
  rw [getDateSortKey, if_neg hne, jsTrim_month_year m ds hm hmw hd hdd,
    splitOnSpace_append_space m ds hms, splitOnSpace_no_space ds hds]
  simp [jsParseInt, takeWhile_all ds hdd, hd, hz, h]

theorem sortTimeline_sorted (items : List TimelineItem) :
    List.Sorted (fun a b => TimelineItem.sortKey b ≤ TimelineItem.sortKey a)
      (sortTimeline items) := by
  haveI : IsTotal TimelineItem
      (fun a b => TimelineItem.sortKey b ≤ TimelineItem.sortKey a) :=
    ⟨fun a b => Nat.le_total b.sortKey a.sortKey⟩
  haveI : IsTrans TimelineItem
      (fun a b => TimelineItem.sortKey b ≤ TimelineItem.sortKey a) :=
    ⟨fun _ _ _ h1 h2 => le_trans h2 h1⟩
  exact List.sorted_insertionSort _ items

/-- C10: `getDateSortKey` maps every string of the form `<Month> <Year>`
(a recognized three-letter month abbreviation, a single space, a non-empty
digit string of nonzero value) to `year * 100 +` the month's 1-based
index; it returns 0 for the empty string and for any string whose trimmed
form does not split into at least two space-separated parts; and in the
newest-first timeline ordering every item with a positive sort key (in
particular every `<Month> <Year>`-dated item) sorts strictly before every
undated (empty-date) item. -/
theorem date_sort_key_spec :
    (∀ (m : List Char) (idx : Nat) (ds : List Char),
        monthIndex m = some idx → ds ≠ [] →
        (∀ c ∈ ds, jsIsDigit c = true) → digitsToNat ds ≠ 0 →
        getDateSortKey (m ++ ' ' :: ds) = digitsToNat ds * 100 + idx) ∧
    (∀ s : List Char,
        s = [] ∨ (splitOnSpace (jsTrim s)).length < 2 →
        getDateSortKey s = 0) ∧
    (∀ (items : List TimelineItem) (i j : Nat)
        (hi : i < (sortTimeline items).length)
        (hj : j < (sortTimeline items).length),
        0 < ((sortTimeline items).get ⟨i, hi⟩).sortKey →
        ((sortTimeline items).get ⟨j, hj⟩).date = [] → i < j) := by
  refine ⟨fun m idx ds h hd hdd hz =>
    getDateSortKey_month_year m ds idx h hd hdd hz, ?_, ?_⟩
  · intro s hs
    rcases hs with rfl | hlen
    · rfl
    · rw [getDateSortKey]
      split
      · rfl
      · split
        next p0 p1 rest heq =>
          rw [heq] at hlen
          simp only [List.length_cons] at hlen
          omega
        next => rfl
  · intro items i j hi hj hkey hdate
    have h0 : TimelineItem.sortKey ((sortTimeline items).get ⟨j, hj⟩) = 0 := by
      rw [TimelineItem.sortKey, hdate]
      rfl
    rcases Nat.lt_trichotomy i j with h | h | h
    · exact h
    · exfalso
      subst h
      have hfin : (⟨i, hi⟩ : Fin (sortTimeline items).length) = ⟨i, hj⟩ := rfl
      rw [hfin] at hkey
      omega
    · exfalso
      have hr := (sortTimeline_sorted items).rel_get_of_lt
        (a := ⟨j, hj⟩) (b := ⟨i, hi⟩) h
      simp only at hr
      omega

/-- C10 witness: the dated string `"Jan 2024"` gets key `202401`, a
one-part string gets key 0, and in the sorted two-item timeline the dated
item lands at position 0, before the undated one at position 1. -/
theorem date_sort_key_spec_witness :
    getDateSortKey (['J', 'a', 'n'] ++ ' ' :: ['2', '0', '2', '4']) =
      digitsToNat ['2', '0', '2', '4'] * 100 + 1 ∧
    getDateSortKey ['M', 'a', 'y'] = 0 ∧ (0 : Nat) < 1 :=
  ⟨date_sort_key_spec.1 ['J', 'a', 'n'] 1 ['2', '0', '2', '4']
      (by decide) (by decide) (by decide) (by decide),
   date_sort_key_spec.2.1 ['M', 'a', 'y'] (by decide),
   date_sort_key_spec.2.2
      [⟨[]⟩, ⟨['J', 'a', 'n', ' ', '2', '0', '2', '4']⟩]
      0 1 (by decide) (by decide) (by decide) (by decide)⟩

/-! ## Chatbot theorems -/

/-- C8: for every state whose trimmed input is non-empty,
`handleSendMessage` terminates with `loading` reset to `false` and appends
exactly two entries to `messages`: the user's message followed by exactly
one bot message — the server's response text on success, the fixed
failure notice on a non-OK HTTP status or a network error. -/
theorem chatbot_send_two_messages (st : ChatState) (outcome : FetchOutcome)
    (h : jsTrim st.input ≠ []) :
    (handleSendMessage st outcome).1.loading = false ∧
    (handleSendMessage st outcome).1.messages =
      st.messages ++
        [⟨st.input, false⟩,
         ⟨match outcome with
           | .success r => r
           | .httpError => failureNotice
           | .networkFailure => failureNotice, true⟩] := by
  simp [handleSendMessage, h]

/-- C8 witness: sending `"hi"` from an empty history with a successful
response `"yo"` ends un-loading with exactly the user and bot entries. -/
theorem chatbot_send_two_messages_witness :
    (handleSendMessage ⟨[], ['h', 'i'], false⟩
        (.success ['y', 'o'])).1.loading = false ∧
    (handleSendMessage ⟨[], ['h', 'i'], false⟩
        (.success ['y', 'o'])).1.messages =
      [] ++ [⟨['h', 'i'], false⟩, ⟨['y', 'o'], true⟩] :=
  chatbot_send_two_messages ⟨[], ['h', 'i'], false⟩ (.success ['y', 'o'])
    (by decide)

/-- C9: if the input trims to the empty string, `handleSendMessage`
returns immediately — no network request is issued and the messages list,
the input field and the loading flag are all unchanged. -/
theorem chatbot_whitespace_noop (st : ChatState) (outcome : FetchOutcome)
    (h : jsTrim st.input = []) :
    handleSendMessage st outcome = (st, false) := by
  simp [handleSendMessage, h]

/-- C9 witness: a whitespace-only input leaves the state untouched and
issues no request, whatever the network would have answered. -/
theorem chatbot_whitespace_noop_witness :
    handleSendMessage ⟨[], [' ', ' ', ' '], false⟩ .httpError =
      (⟨[], [' ', ' ', ' '], false⟩, false) :=
  chatbot_whitespace_noop ⟨[], [' ', ' ', ' '], false⟩ .httpError (by decide)

/-! ## Sliding-window chunker lemmas -/

theorem slidingWindowsAux_ne_nil {α : Type u} (cfg : ChunkingConfig) :
    ∀ (fuel : Nat) (ts : List α), ts ≠ [] → ts.length ≤ fuel →
      slidingWindowsAux cfg fuel ts ≠ []
  | _, [], h, _ => absurd rfl h
  | 0, _ :: _, _, hf => by simp at hf
  | _ + 1, t :: rest, _, _ => by
      rw [slidingWindowsAux]
      split <;> simp

theorem slidingWindowsAux_flatten_drop {α : Type u} (cfg : ChunkingConfig) :
    ∀ (fuel : Nat) (ts : List α), ts.length ≤ fuel →
      ((slidingWindowsAux cfg fuel ts).map
          (List.drop cfg.overlap_size)).flatten = ts.drop cfg.overlap_size
  | _, [], _ => by simp [slidingWindowsAux]
  | 0, _ :: _, hf => by simp at hf
  | fuel + 1, t :: rest, hf => by
      have hv := cfg.valid
      rw [slidingWindowsAux]
      split
      next => simp
      next hlong =>
        have ih := slidingWindowsAux_flatten_drop cfg fuel
          ((t :: rest).drop (cfg.chunk_size - cfg.overlap_size))
          (by simp only [List.length_drop]; simp only [List.length_cons] at hf ⊢; omega)
        simp only [List.map_cons, List.flatten_cons, ih]
        rw [List.drop_take, List.drop_drop]
        have h2 : List.drop (cfg.chunk_size - cfg.overlap_size +
            cfg.overlap_size) (t :: rest) =
            List.drop (cfg.chunk_size - cfg.overlap_size)
              (List.drop cfg.overlap_size (t :: rest)) := by
          rw [List.drop_drop]
          congr 1
          omega
        rw [h2, List.take_append_drop]

/-- C1: for every non-empty input and every valid configuration,
concatenating the non-overlapping portions of the sliding-window chunks
(the first window whole, every later window minus its `overlap_size`-token
shared prefix), in order, yields back exactly the input token sequence. -/
theorem sliding_coverage {α : Type u} (cfg : ChunkingConfig) (ts : List α)
    (h : ts ≠ []) :
    nonOverlapConcat cfg.overlap_size (slidingWindows cfg ts) = ts := by
  cases ts with
  | nil => exact absurd rfl h
  | cons t rest =>
    have hv := cfg.valid
    rw [slidingWindows, List.length_cons, slidingWindowsAux]
    split
    next => simp [nonOverlapConcat]
    next hlong =>
      rw [nonOverlapConcat,
        slidingWindowsAux_flatten_drop cfg rest.length
          ((t :: rest).drop (cfg.chunk_size - cfg.overlap_size))
          (by simp only [List.length_drop, List.length_cons]
              simp only [List.length_cons] at hlong
              omega),
        List.drop_drop]
      have h2 : cfg.chunk_size - cfg.overlap_size + cfg.overlap_size =
          cfg.chunk_size := by omega
      rw [h2, List.take_append_drop]

/-- C1 witness: the five tokens `[0, 1, 2, 3, 4]` chunked with
`chunk_size = 3`, `overlap_size = 1` reassemble exactly. -/
theorem sliding_coverage_witness :
    nonOverlapConcat cfgSmall.overlap_size
      (slidingWindows cfgSmall [0, 1, 2, 3, 4]) = [0, 1, 2, 3, 4] :=
  sliding_coverage cfgSmall [0, 1, 2, 3, 4] (by decide)

theorem slidingWindowsAux_mem_length {α : Type u} (cfg : ChunkingConfig) :
    ∀ (fuel : Nat) (ts : List α) (w : List α),
      w ∈ slidingWindowsAux cfg fuel ts → w.length ≤ cfg.chunk_size
  | _, [], _, hw => by simp [slidingWindowsAux] at hw
  | 0, _ :: _, _, hw => by simp [slidingWindowsAux] at hw
  | fuel + 1, t :: rest, w, hw => by
      rw [slidingWindowsAux] at hw
      split at hw
      next hshort =>
        rw [List.mem_singleton] at hw
        subst hw
        exact hshort
      next hlong =>
        rcases List.mem_cons.mp hw with rfl | hmem
        · rw [List.length_take]
          omega
        · exact slidingWindowsAux_mem_length cfg fuel _ w hmem

/-- C2 counterexample: the structured chunker enforces no size ceiling, so
a record with one 513-token work-experience unit yields a chunk whose
token count exceeds the configured `chunk_size` of 512 — the bound does
not hold for "either variant". -/
theorem chunk_size_bound_counterexample :
    ¬ ∀ c ∈ (structuredChunks "resume" oversizeRecord).1,
        c.text.length ≤ cfg512.chunk_size := by decide

/-- C2 (amended): every chunk produced by the sliding-window chunker has
token count at most the configured `chunk_size`; the structured chunker
deliberately enforces no such bound. -/
theorem sliding_chunk_size_bound {α : Type u} (cfg : ChunkingConfig)
    (source_type : String) (ts : List α) (c : Chunk α)
    (hc : c ∈ slidingChunkText cfg source_type ts) :
    c.text.length ≤ cfg.chunk_size := by
  simp only [slidingChunkText] at hc
  obtain ⟨p, hp, rfl⟩ := List.mem_map.mp hc
  have hmem : p.2 ∈ slidingWindows cfg ts := by
    rw [List.enum_eq_zip_range] at hp
    exact (List.of_mem_zip hp).2
  exact slidingWindowsAux_mem_length cfg _ ts p.2 hmem

/-- C2 witness: the single chunk of a 3-token input keeps within the
512-token bound of the default configuration. -/
theorem sliding_chunk_size_bound_witness :
    (Chunk.mk [0, 1, 2] "resume" none 0 1).text.length ≤ cfg512.chunk_size :=
  sliding_chunk_size_bound cfg512 "resume" [0, 1, 2]
    (Chunk.mk [0, 1, 2] "resume" none 0 1) (by decide)

/-- C3 counterexample: on the spec's own worked example — 1500 tokens,
`chunk_size = 512`, `overlap_size = 50` — the sliding-window algorithm of
spec section 4.1 does not produce 3 chunks. -/
theorem example_1500_counterexample :
    ¬ (slidingChunkText cfg512 "resume" tokens1500).length = 3 := by decide

/-- C3 (amended): a 1500-token input with `chunk_size = 512`,
`overlap_size = 50` yields exactly 4 chunks, with window starts at token
offsets 0, 462, 924 and 1386; the first three windows hold 512 tokens and
the fourth covers tokens 1386-1499; the chunks carry
`chunk_index ∈ {0, 1, 2, 3}` and `total_chunks = 4`. -/
theorem example_1500_amended :
    (slidingChunkText cfg512 "resume" tokens1500).length = 4 ∧
    (slidingChunkText cfg512 "resume" tokens1500).map Chunk.text =
      [List.range' 0 512, List.range' 462 512, List.range' 924 512,
       List.range' 1386 114] ∧
    (slidingChunkText cfg512 "resume" tokens1500).map Chunk.chunk_index =
      [0, 1, 2, 3] ∧
    (slidingChunkText cfg512 "resume" tokens1500).map Chunk.total_chunks =
      [4, 4, 4, 4] :=
  ⟨by decide, by decide, by decide, by decide⟩

theorem slidingWindowsAux_head_take {α : Type u} (cfg : ChunkingConfig) :
    ∀ (fuel : Nat) (ts w : List α) (ws' : List (List α)),
      slidingWindowsAux cfg fuel ts = w :: ws' →
      w.take cfg.overlap_size = ts.take cfg.overlap_size
  | _, [], _, _, h => by simp [slidingWindowsAux] at h
  | 0, _ :: _, _, _, h => by simp [slidingWindowsAux] at h
  | fuel + 1, t :: rest, w, ws', h => by
      rw [slidingWindowsAux] at h
      split at h
      next =>
        injection h with h1 _
        subst h1
        rfl
      next =>
        injection h with h1 _
        subst h1
        rw [List.take_take]
        congr 1
        have := cfg.valid
        omega

theorem slidingWindowsAux_chain {α : Type u} (cfg : ChunkingConfig) :
    ∀ (fuel : Nat) (ts : List α), ts.length ≤ fuel →
      List.Chain'
        (fun a b => a.drop (a.length - cfg.overlap_size) =
          b.take cfg.overlap_size)
        (slidingWindowsAux cfg fuel ts)
  | _, [], _ => by simp [slidingWindowsAux]
  | 0, _ :: _, hf => by simp at hf
  | fuel + 1, t :: rest, hf => by
      have hv := cfg.valid
      rw [slidingWindowsAux]
      split
      next => simp
      next hlong =>
        rw [List.chain'_cons']
        constructor
        · intro b hb
          cases haux : slidingWindowsAux cfg fuel
              ((t :: rest).drop (cfg.chunk_size - cfg.overlap_size)) with
          | nil => rw [haux] at hb; simp at hb
          | cons w ws' =>
            rw [haux] at hb
            simp at hb
            subst hb
            rw [slidingWindowsAux_head_take cfg fuel _ w ws' haux]
            have hlen : ((t :: rest).take cfg.chunk_size).length =
                cfg.chunk_size := by
              rw [List.length_take]
              simp only [List.length_cons] at hlong ⊢
              omega
            rw [hlen, List.drop_take]
            congr 1
            omega
        · exact slidingWindowsAux_chain cfg fuel _
            (by simp only [List.length_drop]
                simp only [List.length_cons] at hf ⊢
                omega)

/-- C5: for every input and valid configuration, the last `overlap_size`
tokens of window `i` equal the first `overlap_size` tokens of window
`i + 1` (this model performs no sentence-boundary snapping; the spec
scopes the property to exactly that case). -/
theorem overlap_invariant {α : Type u} (cfg : ChunkingConfig) (ts : List α)
    (i : Nat) (h : i + 1 < (slidingWindows cfg ts).length) :
    ((slidingWindows cfg ts).get ⟨i, by omega⟩).drop
        (((slidingWindows cfg ts).get ⟨i, by omega⟩).length -
          cfg.overlap_size) =
      ((slidingWindows cfg ts).get ⟨i + 1, h⟩).take cfg.overlap_size := by
  have hc := slidingWindowsAux_chain cfg ts.length ts le_rfl
  rw [List.chain'_iff_get] at hc
  have h2 : i + 1 < (slidingWindowsAux cfg ts.length ts).length := h
  exact hc i (by omega)

/-- C5 witness: with `chunk_size = 3`, `overlap_size = 1`, the windows of
`[0, 1, 2, 3, 4]` are `[0, 1, 2]` and `[2, 3, 4]`, and the last token of
the first window equals the first token of the second. -/
theorem overlap_invariant_witness :
    ((slidingWindows cfgSmall [0, 1, 2, 3, 4]).get ⟨0, by decide⟩).drop
        (((slidingWindows cfgSmall [0, 1, 2, 3, 4]).get ⟨0, by decide⟩).length -
          cfgSmall.overlap_size) =
      ((slidingWindows cfgSmall [0, 1, 2, 3, 4]).get
        ⟨1, by decide⟩).take cfgSmall.overlap_size :=
  overlap_invariant cfgSmall [0, 1, 2, 3, 4] 0 (by decide)

theorem map_drop_zero {α : Type u} :
    ∀ l : List (List α), l.map (List.drop 0) = l
  | [] => rfl
  | x :: xs => by rw [List.map_cons, List.drop_zero, map_drop_zero xs]

theorem nonOverlapConcat_zero {α : Type u} :
    ∀ ws : List (List α), nonOverlapConcat 0 ws = ws.flatten
  | [] => rfl
  | w :: rest => by
      rw [nonOverlapConcat, List.flatten_cons, map_drop_zero rest]

theorem sw_flatten_of_overlap_zero {α : Type u} (cfg : ChunkingConfig)
    (h : cfg.overlap_size = 0) (ts : List α) :
    (slidingWindows cfg ts).flatten = ts := by
  cases ts with
  | nil => rfl
  | cons t rest =>
    have h1 := sliding_coverage cfg (t :: rest) (by simp)
    rw [h, nonOverlapConcat_zero] at h1
    exact h1

/-- C4: constructing a `ChunkingConfig` with `overlap_size = chunk_size`
fails with a `ConfigurationError` at config-load time (for every size, so
before any chunking can begin), while `overlap_size = 0` with a positive
`chunk_size` succeeds and makes the sliding windows non-overlapping and
contiguous: their plain concatenation is exactly the input. -/
theorem config_validation :
    (∀ cs mq ed : Int, ∃ e, mkChunkingConfig cs cs mq ed = .error e) ∧
    (∀ cs mq ed : Int, 0 < cs →
      ∃ cfg, mkChunkingConfig cs 0 mq ed = .ok cfg ∧
        cfg.overlap_size = 0 ∧
        ∀ ts : List Nat, (slidingWindows cfg ts).flatten = ts) := by
  constructor
  · intro cs mq ed
    rw [mkChunkingConfig]
    split
    next => exact ⟨_, rfl⟩
    next h1 =>
      split
      next h2 => exact absurd h2 (by omega)
      next h2 =>
        split
        next => exact ⟨_, rfl⟩
        next h3 => exact absurd h3 (by omega)
  · intro cs mq ed hcs
    rw [mkChunkingConfig]
    split
    next h1 => exact absurd h1 (by omega)
    next h1 =>
      split
      next h2 => exact absurd h2 (by omega)
      next h2 =>
        exact ⟨_, rfl, rfl, fun ts => sw_flatten_of_overlap_zero _ rfl ts⟩

/-- C4 witness: `overlap_size = chunk_size = 512` is rejected, while
`overlap_size = 0` is accepted and chunks `[7, 8, 9]` into contiguous
windows that flatten back to the input. -/
theorem config_validation_witness :
    (∃ e, mkChunkingConfig 512 512 5 1 = .error e) ∧
    (∃ cfg, mkChunkingConfig 512 0 5 1 = .ok cfg ∧
      cfg.overlap_size = 0 ∧
      (slidingWindows cfg [7, 8, 9]).flatten = [7, 8, 9]) :=
  ⟨config_validation.1 512 5 1,
   (config_validation.2 512 5 1 (by decide)).imp
     fun _ hc => ⟨hc.1, hc.2.1, hc.2.2 [7, 8, 9]⟩⟩

/-! ## Structured chunker lemmas -/

theorem sectionChunksAux_length {α : Type u} (st l : String) (total : Nat) :
    ∀ (i : Nat) (us : List (List α)),
      (sectionChunksAux st l total i us).length = us.length
  | _, [] => rfl
  | i, u :: us => by
      rw [sectionChunksAux, List.length_cons, List.length_cons,
        sectionChunksAux_length st l total (i + 1) us]

theorem sectionChunksAux_map_index {α : Type u} (st l : String)
    (total : Nat) :
    ∀ (i : Nat) (us : List (List α)),
      (sectionChunksAux st l total i us).map Chunk.chunk_index =
        List.range' i us.length
  | _, [] => rfl
  | i, u :: us => by
      rw [sectionChunksAux, List.map_cons, List.length_cons,
        List.range'_succ, sectionChunksAux_map_index st l total (i + 1) us]

theorem sectionChunksAux_total {α : Type u} (st l : String) (total : Nat) :
    ∀ (i : Nat) (us : List (List α)) (c : Chunk α),
      c ∈ sectionChunksAux st l total i us → c.total_chunks = total
  | _, [], _, hc => by simp [sectionChunksAux] at hc
  | i, u :: us, c, hc => by
      rw [sectionChunksAux] at hc
      rcases List.mem_cons.mp hc with rfl | hmem
      · rfl
      · exact sectionChunksAux_total st l total (i + 1) us c hmem

theorem sectionChunksAux_filter_self {α : Type u} (st l : String)
    (total : Nat) :
    ∀ (i : Nat) (us : List (List α)),
      (sectionChunksAux st l total i us).filter
          (fun c => c.sectionLabel == some l) =
        sectionChunksAux st l total i us
  | _, [] => rfl
  | i, u :: us => by
      rw [sectionChunksAux, List.filter_cons, if_pos (by simp),
        sectionChunksAux_filter_self st l total (i + 1) us]

theorem sectionChunksAux_filter_ne {α : Type u} (st l l' : String)
    (h : l ≠ l') (total : Nat) :
    ∀ (i : Nat) (us : List (List α)),
      (sectionChunksAux st l total i us).filter
          (fun c => c.sectionLabel == some l') = []
  | _, [] => rfl
  | i, u :: us => by
      rw [sectionChunksAux, List.filter_cons, if_neg (by simp [h]),
        sectionChunksAux_filter_ne st l l' h total (i + 1) us]

theorem sectionChunks_length {α : Type u} (st l : String)
    (us : List (List α)) : (sectionChunks st l us).length = us.length :=
  sectionChunksAux_length st l us.length 0 us

theorem sectionChunks_map_index {α : Type u} (st l : String)
    (us : List (List α)) :
    (sectionChunks st l us).map Chunk.chunk_index = List.range us.length := by
  rw [sectionChunks, sectionChunksAux_map_index st l us.length 0 us,
    List.range_eq_range']

theorem sectionChunks_total {α : Type u} (st l : String)
    (us : List (List α)) (c : Chunk α) (hc : c ∈ sectionChunks st l us) :
    c.total_chunks = us.length :=
  sectionChunksAux_total st l us.length 0 us c hc

theorem sectionChunks_filter_self {α : Type u} (st l : String)
    (us : List (List α)) :
    (sectionChunks st l us).filter (fun c => c.sectionLabel == some l) =
      sectionChunks st l us :=
  sectionChunksAux_filter_self st l us.length 0 us

theorem label_inj : ∀ a b : SectionName, a.label = b.label → a = b := by
  intro a b
  cases a <;> cases b <;> decide

theorem mem_sectionOrder : ∀ sn : SectionName, sn ∈ sectionOrder := by
  intro sn
  cases sn <;> decide

theorem nodup_sectionOrder : sectionOrder.Nodup := by decide

theorem filter_flatten_map {α : Type u} (p : Chunk α → Bool)
    (g : SectionName → List (Chunk α)) :
    ∀ L : List SectionName,
      ((L.map g).flatten).filter p = (L.map fun s => (g s).filter p).flatten
  | [] => rfl
  | s :: L => by
      rw [List.map_cons, List.flatten_cons, List.filter_append,
        List.map_cons, List.flatten_cons, filter_flatten_map p g L]

theorem flatten_ite_not_mem {α : Type u} (target : SectionName)
    (X : List (Chunk α)) :
    ∀ L : List SectionName, target ∉ L →
      (L.map fun s => if s = target then X else []).flatten = []
  | [], _ => rfl
  | s :: L, h => by
      have h1 : ¬s = target := fun he => h (by rw [he]; exact List.mem_cons_self ..)
      have h2 : target ∉ L := fun hm => h (List.mem_cons_of_mem _ hm)
      rw [List.map_cons, List.flatten_cons, if_neg h1, List.nil_append,
        flatten_ite_not_mem target X L h2]

theorem flatten_ite_single {α : Type u} (target : SectionName)
    (X : List (Chunk α)) :
    ∀ L : List SectionName, L.Nodup → target ∈ L →
      (L.map fun s => if s = target then X else []).flatten = X
  | [], _, hm => absurd hm (List.not_mem_nil _)
  | s :: L, hnd, hm => by
      rw [List.map_cons, List.flatten_cons]
      by_cases hs : s = target
      · subst hs
        rw [if_pos rfl,
          flatten_ite_not_mem s X L (List.nodup_cons.mp hnd).1,
          List.append_nil]
      · rw [if_neg hs, List.nil_append]
        refine flatten_ite_single target X L (List.nodup_cons.mp hnd).2 ?_
        rcases List.mem_cons.mp hm with he | hm2
        · exact absurd he.symm hs
        · exact hm2

theorem filter_structuredChunks {α : Type u} (st : String)
    (r : StructuredRecord α) (target : SectionName) (us : List (List α))
    (h : r.sections target = some us) :
    (structuredChunks st r).1.filter
        (fun c => c.sectionLabel == some target.label) =
      sectionChunks st target.label us := by
  have hchunks : (structuredChunks st r).1 =
      (sectionOrder.map fun sn => secBlock st sn (r.sections sn)).flatten :=
    rfl
  rw [hchunks, filter_flatten_map]
  have hblock : ∀ sn : SectionName,
      (secBlock st sn (r.sections sn)).filter
          (fun c => c.sectionLabel == some target.label) =
        if sn = target then sectionChunks st target.label us else [] := by
    intro sn
    by_cases hs : sn = target
    · subst hs
      rw [h, if_pos rfl]
      exact sectionChunks_filter_self st sn.label us
    · rw [if_neg hs]
      cases ho : r.sections sn with
      | none => rfl
      | some vs =>
          have hne : sn.label ≠ target.label :=
            fun he => hs (label_inj sn target he)
          exact sectionChunksAux_filter_ne st sn.label target.label hne
            vs.length 0 vs
  simp only [hblock]
  exact flatten_ite_single target _ sectionOrder nodup_sectionOrder
    (mem_sectionOrder target)

/-- C6: for every structured input whose work-experience section parses to
N entries, the structured chunker produces exactly N chunks labelled
`"work_experience"` (and no others carry that label), their
`chunk_index` values are exactly `0, ..., N-1` in order, and each carries
`total_chunks = N`. -/
theorem structured_completeness {α : Type u} (st : String)
    (r : StructuredRecord α) (us : List (List α))
    (h : r.sections SectionName.workExperience = some us) :
    (workChunksOf st r).length = us.length ∧
    (workChunksOf st r).map Chunk.chunk_index = List.range us.length ∧
    ∀ c ∈ workChunksOf st r, c.total_chunks = us.length := by
  have hw : workChunksOf st r = sectionChunks st "work_experience" us :=
    filter_structuredChunks st r SectionName.workExperience us h
  rw [hw]
  exact ⟨sectionChunks_length st "work_experience" us,
    sectionChunks_map_index st "work_experience" us,
    sectionChunks_total st "work_experience" us⟩

/-- C6 witness: a record with three work-experience entries yields exactly
three `"work_experience"` chunks, indexed 0, 1, 2, each with
`total_chunks = 3`. -/
theorem structured_completeness_witness :
    (workChunksOf "resume" sampleRecord).length = 3 ∧
    (workChunksOf "resume" sampleRecord).map Chunk.chunk_index =
      List.range 3 ∧
    ∀ c ∈ workChunksOf "resume" sampleRecord, c.total_chunks = 3 :=
  structured_completeness "resume" sampleRecord [[1], [2], [3]] rfl

/-- C7: whenever some section of a structured input is malformed or
missing, its name is reported in the warning list (the chunker returns
normally — no error is propagated), and every section that does parse
still contributes its full chunk list, so a bad section never aborts the
processing of the others. -/
theorem malformed_section_skipped {α : Type u} (st : String)
    (r : StructuredRecord α) (sn : SectionName) (h : r.sections sn = none) :
    sn.label ∈ (structuredChunks st r).2 ∧
    ∀ (sn' : SectionName) (us : List (List α)),
      r.sections sn' = some us →
      (structuredChunks st r).1.filter
          (fun c => c.sectionLabel == some sn'.label) =
        sectionChunks st sn'.label us := by
  constructor
  · have hmem : sn ∈ sectionOrder.filter (fun s => (r.sections s).isNone) :=
      List.mem_filter.mpr ⟨mem_sectionOrder sn, by rw [h]; rfl⟩
    exact List.mem_map.mpr ⟨sn, hmem, rfl⟩
  · intro sn' us h'
    exact filter_structuredChunks st r sn' us h'

/-- C7 witness: in a record whose projects section is missing, the warning
list names `"project"` while the three work-experience chunks are still
produced in full. -/
theorem malformed_section_skipped_witness :
    SectionName.project.label ∈ (structuredChunks "resume" sampleRecord).2 ∧
    (structuredChunks "resume" sampleRecord).1.filter
        (fun c => c.sectionLabel == some SectionName.workExperience.label) =
      sectionChunks "resume" SectionName.workExperience.label
        [[1], [2], [3]] :=
  ⟨(malformed_section_skipped "resume" sampleRecord .project rfl).1,
   (malformed_section_skipped "resume" sampleRecord .project rfl).2
      .workExperience [[1], [2], [3]] rfl⟩
